import Mathlib

/-!
Verification of the data-normalization and aggregation pipeline of
`dashboard.py`: the table loader / case aggregator `load_and_process_data`,
the badge classifier `get_badge_html`, and the per-system summary
statistics computed by `render_summary_section`.

Modelling conventions:

* A table cell (`Cell`) is either missing (pandas `NaN`), a number, or a
  text value.  Python `float` coercion is modelled faithfully as to
  success and failure: `pyParseFloatVal` implements the full float
  grammar (mantissa and exponent forms, underscore separators, ASCII
  whitespace, and the `nan`/`inf`/`infinity` words), and a missing cell
  coerces successfully to float NaN.  Finite values are carried as exact
  rationals.  IEEE NaN/infinity *arithmetic* is outside the embedding:
  a successfully coerced non-finite score stops the model at a
  dedicated, clearly-labelled boundary branch of `buildResult` (this
  only shrinks the set of tables the model loads; it is never presented
  as a program error, and no theorem relies on that branch).
* Pandas elementwise equality (`==`, used for the per-system row lookup)
  is modelled by `Cell.peq`, under which `NaN` is unequal to everything.
* `groupby` excludes missing keys, and its group order is modelled as
  first-seen order; the final output is sorted by `case_id` exactly as in
  the source, which makes the group order unobservable except for ties
  between distinct key cells with an equal integer coercion.
* `str` applied to a numeric cell is rendered with Lean's rational
  formatter rather than Python's float formatter; it is never equal to
  "YES" under either formatter, which is the only way the pipeline
  inspects such a string.
-/

namespace Dashboard

/-- A cell of the input table: missing (pandas NaN), numeric, or text. -/
inductive Cell where
  | na : Cell
  | num : ℚ → Cell
  | str : String → Cell
deriving DecidableEq

/-- Whether a cell is missing. -/
def Cell.isNa : Cell → Bool
  | .na => true
  | _ => false

/-- Pandas elementwise equality: NaN compares unequal to everything
(including itself), and numbers never compare equal to text. -/
def Cell.peq : Cell → Cell → Bool
  | .num a, .num b => a == b
  | .str a, .str b => a == b
  | _, _ => false

/-- Numeric value of a digit list (most significant first). -/
def digitsVal (l : List Char) : Nat :=
  l.foldl (fun a c => 10 * a + (c.toNat - 48)) 0

/-- The ASCII whitespace characters Python's numeric coercions strip
(space, tab, newline, carriage return, vertical tab, form feed). -/
def isPySpace (c : Char) : Bool :=
  c == ' ' || c == '\t' || c == '\n' || c == '\r' || c == '\x0b' || c == '\x0c'

/-- Strip surrounding whitespace, as Python numeric coercion does. -/
def trimSpaces (l : List Char) : List Char :=
  ((l.dropWhile isPySpace).reverse.dropWhile isPySpace).reverse

/-- Strip one leading sign; returns (isNegative, rest). -/
def stripSign : List Char → Bool × List Char
  | '-' :: rest => (true, rest)
  | '+' :: rest => (false, rest)
  | l => (false, l)

/-- Split at the first dot: (integer part, fractional part if a dot occurs). -/
def breakAtDot : List Char → List Char × Option (List Char)
  | [] => ([], none)
  | c :: rest =>
    if c == '.' then ([], some rest)
    else
      let (a, b) := breakAtDot rest
      (c :: a, b)

/-- Split at the first exponent marker 'e' or 'E'. -/
def breakAtExp : List Char → List Char × Option (List Char)
  | [] => ([], none)
  | c :: rest =>
    if c == 'e' || c == 'E' then ([], some rest)
    else
      let (a, b) := breakAtExp rest
      (c :: a, b)

/-- Tail of a digit run after its first digit: `(('_')? digit)*`, i.e.
single underscores may stand between digits only.  Returns the digits
with the underscores removed. -/
def digitGroupAux : List Char → Option (List Char)
  | [] => some []
  | '_' :: rest =>
    match rest with
    | c :: rest' =>
      if c.isDigit then (digitGroupAux rest').map (fun l => c :: l) else none
    | [] => none
  | c :: rest =>
    if c.isDigit then (digitGroupAux rest).map (fun l => c :: l) else none

/-- A nonempty run of ASCII digits in which single underscores may stand
between digits (Python's digit-part grammar); returns the digits with
the underscores removed, or `none` if the run is malformed. -/
def digitGroup? : List Char → Option (List Char)
  | [] => none
  | c :: rest =>
    if c.isDigit then (digitGroupAux rest).map (fun l => c :: l) else none

/-- Exact rational value of a signed digit string scaled by a power of
ten, built from `mkRat` so that it evaluates by kernel reduction. -/
def decimalValue (neg : Bool) (digits : List Char) (shift : Int) : ℚ :=
  let m : Int := if neg then -(digitsVal digits : Int) else (digitsVal digits : Int)
  match shift with
  | .ofNat n => mkRat (m * (10 ^ n : Nat)) 1
  | .negSucc n => mkRat m (10 ^ (n + 1))

/-- Value of a Python float: a finite value (modelled exactly as a
rational), NaN, or a signed infinity. -/
inductive FloatVal where
  | finite : ℚ → FloatVal
  | nan : FloatVal
  | inf : Bool → FloatVal
deriving DecidableEq

/-- Python `float` applied to a string: optional surrounding whitespace
and sign, then `nan`, `inf` or `infinity` in any letter case, or a
decimal mantissa (`digits`, `digits.`, `.digits` or `digits.digits`,
single underscores allowed between digits) with an optional `e`/`E`
exponent.  `none` models a `ValueError`.  Unicode digit and whitespace
forms, which CPython also maps through, are outside the embedding;
finite values are exact rationals rather than doubles. -/
def pyParseFloatVal (s : String) : Option FloatVal :=
  let sb := stripSign (trimSpaces s.data)
  let low := sb.2.map Char.toLower
  if low == ("nan".data) then some FloatVal.nan
  else if low == ("inf".data) || low == ("infinity".data) then
    some (FloatVal.inf sb.1)
  else
    let me := breakAtExp sb.2
    let ipfp := breakAtDot me.1
    let mantissa? : Option (List Char × Nat) :=
      match ipfp.2 with
      | none => (digitGroup? ipfp.1).map (fun ds => (ds, 0))
      | some fpRaw =>
        if ipfp.1.isEmpty && fpRaw.isEmpty then none
        else if ipfp.1.isEmpty then
          (digitGroup? fpRaw).map (fun fs => (fs, fs.length))
        else if fpRaw.isEmpty then (digitGroup? ipfp.1).map (fun ds => (ds, 0))
        else
          match digitGroup? ipfp.1, digitGroup? fpRaw with
          | some ds, some fs => some (ds ++ fs, fs.length)
          | _, _ => none
    let exp? : Option Int :=
      match me.2 with
      | none => some 0
      | some expRaw =>
        let se := stripSign expRaw
        (digitGroup? se.2).map (fun es =>
          if se.1 then -(digitsVal es : Int) else (digitsVal es : Int))
    match mantissa?, exp? with
    | some md, some e =>
      some (FloatVal.finite (decimalValue sb.1 md.1 (e - (md.2 : Int))))
    | _, _ => none

/-- The finite value of a Python float, if any.  NaN and the infinities
are not rationals: where the program carries them into a score, the
embedding stops (see `buildResult`) rather than invent a value. -/
def FloatVal.finite? : FloatVal → Option ℚ
  | .finite q => some q
  | _ => none

/-- Python `int` applied to a string: optional surrounding whitespace
and sign and a run of digits with single underscores allowed between
them (unicode digit forms are outside the embedding). -/
def pyParseInt (s : String) : Option Int :=
  let sb := stripSign (trimSpaces s.data)
  (digitGroup? sb.2).map (fun ds =>
    if sb.1 then -(digitsVal ds : Int) else (digitsVal ds : Int))

/-- Python `int` applied to a float: truncation toward zero, i.e.
T-division of the reduced numerator by the denominator. -/
def pyTrunc (q : ℚ) : Int :=
  q.num.tdiv (q.den : Int)

/-- Python `float` applied to a cell value: a numeric cell is its own
value, a text cell goes through the float grammar, and a missing cell
coerces successfully to float NaN (`float(nan)` does not raise). -/
def Cell.pyFloatVal : Cell → Option FloatVal
  | .na => some FloatVal.nan
  | .num q => some (FloatVal.finite q)
  | .str s => pyParseFloatVal s

/-- Python `int` applied to a cell value (`int(nan)` raises in Python). -/
def Cell.pyInt : Cell → Option Int
  | .na => none
  | .num q => some (pyTrunc q)
  | .str s => pyParseInt s

/-- Python `str` applied to a cell value. -/
def Cell.pyStr : Cell → String
  | .na => "nan"
  | .num q => toString q
  | .str s => s

/-- Python `str.upper` (ASCII letters; no other character of the source
data is case-mapped). -/
def pyUpper (s : String) : String :=
  String.mk (s.data.map Char.toUpper)

/-- The in-memory table produced by `pd.read_csv` / `pd.read_excel`:
a header of column names and a list of rows of cells. -/
structure Table where
  header : List String
  rows : List (List Cell)
deriving DecidableEq

/-- Index of the first list element satisfying `p`. -/
def findIdxA (p : String → Bool) : List String → Option Nat
  | [] => none
  | x :: xs => if p x then some 0 else (findIdxA p xs).map (fun i => i + 1)

/-- Column lookup `df[c]`: index of the (first) column named exactly `c`.
`none` models a `KeyError`.  Pandas column names are matched
case-sensitively. -/
def Table.colIdx (t : Table) (c : String) : Option Nat :=
  findIdxA (fun s => s == c) t.header

/-- Cell of a row at a column index (missing past the end of the row). -/
def getCell (r : List Cell) (j : Nat) : Cell :=
  r.getD j Cell.na

/-- The fixed `df.fillna({...})` default of `load_and_process_data`,
keyed by column name. -/
def fillnaDefaults : List (String × String) :=
  [("CITATION_RULE", "无具体规则"),
   ("QUESTION", "未找到问题内容"),
   ("GROUND_TRUTH", "无标准内容参考"),
   ("S4_REASON", ""),
   ("AUDIT_REASONING", "暂无 AI 审计分析进度"),
   ("MODEL_OUTPUT", "[模型输出内容缺失]"),
   ("SOURCE_FILE", "未知数据源")]

/-- The default for a column name, when `fillna` targets it. -/
def defaultFor (name : String) : Option String :=
  (fillnaDefaults.find? (fun p => p.1 == name)).map (fun p => p.2)

/-- One cell of the `fillna` substitution: a missing cell in a column
with a default is replaced by that default; all else is untouched. -/
def fillCell (h : List String) (j : Nat) (c : Cell) : Cell :=
  match c with
  | .na =>
    match h.get? j with
    | some name =>
      match defaultFor name with
      | some d => .str d
      | none => .na
    | none => .na
  | c => c

/-- Substitution of `fillna` over one row, tracking the column index. -/
def fillRowAux (h : List String) : Nat → List Cell → List Cell
  | _, [] => []
  | j, c :: cs => fillCell h j c :: fillRowAux h (j + 1) cs

/-- The `df.fillna` call: the table-wide default substitution applied
once, before any grouping. -/
def Table.fillna (t : Table) : Table :=
  ⟨t.header, t.rows.map (fillRowAux t.header 0)⟩

/-- The `SystemResult` dataclass of the source. -/
structure SystemResult where
  system_name : Cell
  score : ℚ
  is_fatal : Bool
  raw_response : String
  audit_reasoning : String
  fatal_reason : String
deriving DecidableEq

/-- The `EvaluationCase` dataclass of the source. -/
structure EvaluationCase where
  case_id : Int
  question_text : String
  citation_rule : String
  ground_truth : String
  source_file : String
  results : List SystemResult
deriving DecidableEq

/-- First-seen-order deduplication with an accumulator of already seen
values. -/
def firstSeenAux (seen : List Cell) : List Cell → List Cell
  | [] => []
  | c :: cs =>
    if c ∈ seen then firstSeenAux seen cs
    else c :: firstSeenAux (c :: seen) cs

/-- First-seen-order deduplication, as `pandas.Series.unique`. -/
def firstSeen (l : List Cell) : List Cell :=
  firstSeenAux [] l

/-- Monadic map over `Except`, stopping at the first error (the loop of
`load_and_process_data` aborts at the first raised exception). -/
def mapExcept (f : α → Except String β) : List α → Except String (List β)
  | [] => .ok []
  | x :: xs =>
    match f x with
    | .error e => .error e
    | .ok y =>
      match mapExcept f xs with
      | .error e => .error e
      | .ok ys => .ok (y :: ys)

/-- The synthesized result for a system with no row in a case's group:
score 0.0, not fatal, fixed missing-data markers. -/
def placeholderResult (s : Cell) : SystemResult :=
  ⟨s, 0, false, "[系统端缺失数据]", "N/A", ""⟩

/-- The rows of one `groupby('CASE_ID')` group, in table order. -/
def groupRows (t : Table) (ci : Nat) (k : Cell) : List (List Cell) :=
  t.rows.filter (fun r => Cell.peq (getCell r ci) k)

/-- One `SystemResult` of the aggregation loop: the first row of the
group matching the system (pandas `==`) is used; with no match the
placeholder is synthesized.  Errors model uncaught Python exceptions, in
the evaluation order of the source (`KeyError` on a missing accessed
column, `ValueError` on an uncoercible score) — except for the branch
labelled "outside the rational-score embedding": there the program
coerces the score successfully to float NaN or an infinity and builds
the case with that non-rational value, which this embedding does not
carry; the model stops instead of inventing a value, so such tables
simply fall outside its success set. -/
def buildResult (t : Table) (grp : List (List Cell)) (si : Nat) (s : Cell) :
    Except String SystemResult :=
  match grp.find? (fun r => Cell.peq (getCell r si) s) with
  | some row =>
    match t.colIdx "TOTAL_SCORE" with
    | none => .error "KeyError: TOTAL_SCORE"
    | some ti =>
      match (getCell row ti).pyFloatVal with
      | none => .error "ValueError: could not convert string to float"
      | some fv =>
        match fv.finite? with
        | none => .error "float nan or inf score: outside the rational-score embedding"
        | some score =>
          match t.colIdx "S4_FATAL" with
          | none => .error "KeyError: S4_FATAL"
          | some fi =>
            match t.colIdx "MODEL_OUTPUT" with
            | none => .error "KeyError: MODEL_OUTPUT"
            | some mi =>
              match t.colIdx "AUDIT_REASONING" with
              | none => .error "KeyError: AUDIT_REASONING"
              | some ai =>
                .ok ⟨s, score,
                     pyUpper (Cell.pyStr (getCell row fi)) == "YES",
                     Cell.pyStr (getCell row mi),
                     Cell.pyStr (getCell row ai),
                     match t.colIdx "S4_REASON" with
                     | some ri => Cell.pyStr (getCell row ri)
                     | none => ""⟩
  | none => .ok (placeholderResult s)

/-- One `EvaluationCase` of the aggregation loop: the first row of the
group supplies the descriptive fields; one result per known system.
Field evaluation order follows the source. -/
def buildCase (t : Table) (systems : List Cell) (si ci : Nat) (k : Cell) :
    Except String EvaluationCase :=
  match (groupRows t ci k).head? with
  | none => .error "empty group"
  | some first_row =>
    match mapExcept (buildResult t (groupRows t ci k) si) systems with
    | .error e => .error e
    | .ok results =>
      match k.pyInt with
      | none => .error "ValueError: invalid literal for int"
      | some cid =>
        match t.colIdx "QUESTION" with
        | none => .error "KeyError: QUESTION"
        | some qi =>
          match t.colIdx "CITATION_RULE" with
          | none => .error "KeyError: CITATION_RULE"
          | some cri =>
            match t.colIdx "GROUND_TRUTH" with
            | none => .error "KeyError: GROUND_TRUTH"
            | some gi =>
              .ok ⟨cid,
                   Cell.pyStr (getCell first_row qi),
                   Cell.pyStr (getCell first_row cri),
                   Cell.pyStr (getCell first_row gi),
                   (match t.colIdx "SOURCE_FILE" with
                    | some sfi => Cell.pyStr (getCell first_row sfi)
                    | none => "未知"),
                   results⟩

/-- Stable ascending insertion by `case_id`. -/
def insertCase (c : EvaluationCase) : List EvaluationCase → List EvaluationCase
  | [] => [c]
  | d :: ds => if c.case_id ≤ d.case_id then c :: d :: ds else d :: insertCase c ds

/-- Python `sorted(cases, key=lambda x: x.case_id)`: stable ascending sort. -/
def sortCases : List EvaluationCase → List EvaluationCase
  | [] => []
  | c :: cs => insertCase c (sortCases cs)

/-- The processing stage of `load_and_process_data` (everything after the
file read, which sits outside the function's `try`): fillna, global
system list, group by case id, build each case, sort by case id.
`Except.error` models an uncaught exception propagating to the caller. -/
def processTable (t0 : Table) : Except String (List EvaluationCase) :=
  match t0.fillna.colIdx "SYSTEM" with
  | none => .error "KeyError: SYSTEM"
  | some si =>
    match t0.fillna.colIdx "CASE_ID" with
    | none => .error "KeyError: CASE_ID"
    | some ci =>
      match mapExcept
          (buildCase t0.fillna
            (firstSeen (t0.fillna.rows.map (fun r => getCell r si))) si ci)
          (firstSeen ((t0.fillna.rows.map (fun r => getCell r ci)).filter
            (fun c => !c.isNa))) with
      | .error e => .error e
      | .ok cs => .ok (sortCases cs)

/-- The global system list `df['SYSTEM'].unique()` computed by
`load_and_process_data` (over the fillna-normalized table, whose SYSTEM
column is identical to the input's). -/
def uniqueSystems (t : Table) : List Cell :=
  match t.fillna.colIdx "SYSTEM" with
  | some si => firstSeen (t.fillna.rows.map (fun r => getCell r si))
  | none => []

/-- The distinct non-missing `CASE_ID` cells, in first-seen order: the
group keys of `df.groupby('CASE_ID')`. -/
def caseKeys (t : Table) : List Cell :=
  match t.fillna.colIdx "CASE_ID" with
  | some ci => firstSeen ((t.fillna.rows.map (fun r => getCell r ci)).filter
      (fun c => !c.isNa))
  | none => []

/-- The first row of case-group `k` whose SYSTEM cell equals `s` under
pandas equality, if any: the row lookup of the aggregation loop. -/
def groupFind (t : Table) (k s : Cell) : Option (List Cell) :=
  match t.fillna.colIdx "CASE_ID", t.fillna.colIdx "SYSTEM" with
  | some ci, some si =>
    (groupRows t.fillna ci k).find? (fun r => Cell.peq (getCell r si) s)
  | _, _ => none

/-- Outcome of the file-reading stage, which is inside the `try` of
`load_and_process_data`. -/
inductive ReadResult where
  | ok : Table → ReadResult
  | fail : String → ReadResult

/-- Observable outcome of `load_and_process_data` for its caller:
a normal return value, the empty list after a displayed read error
(`st.error` plus `return []`), or an uncaught exception. -/
inductive LoadOutcome where
  | returned : List EvaluationCase → LoadOutcome
  | errorShown : String → LoadOutcome
  | raised : String → LoadOutcome
deriving DecidableEq

/-- Whether the outcome is the displayed-error-plus-empty-list one. -/
def LoadOutcome.isErrorShown : LoadOutcome → Bool
  | .errorShown _ => true
  | _ => false

/-- The function `load_and_process_data`: only the file read is guarded by
`try/except` (read failure shows a message and returns `[]`); any
exception of the processing stage propagates to the caller uncaught. -/
def load_and_process_data : ReadResult → LoadOutcome
  | .fail msg => .errorShown msg
  | .ok t =>
    match processTable t with
    | .ok cases => .returned cases
    | .error e => .raised e

/-- Badge markup constants of `get_badge_html`. -/
def badgeFatal : String :=
  "<span class=\"badge badge-fail\">🚨 致命错误</span>"

def badgePerfect (n : Int) : String :=
  "<span class=\"badge badge-perfect\">💯 满分 (" ++ toString n ++ ")</span>"

def badgeExcellent (n : Int) : String :=
  "<span class=\"badge badge-excellent\">🟢 优秀 (" ++ toString n ++ ")</span>"

def badgeFail (n : Int) : String :=
  "<span class=\"badge badge-fail\">⚠️ 不合格 (" ++ toString n ++ ")</span>"

def badgeNeutral (n : Int) : String :=
  "<span class=\"badge badge-neutral\">🔵 合格 (" ++ toString n ++ ")</span>"

/-- The classifier `get_badge_html` of the source, branch for branch. -/
def get_badge_html (score : ℚ) (is_fatal : Bool) : String :=
  if is_fatal then badgeFatal
  else if score ≥ 100 then badgePerfect (pyTrunc score)
  else if score ≥ 90 then badgeExcellent (pyTrunc score)
  else if score < 60 then badgeFail (pyTrunc score)
  else badgeNeutral (pyTrunc score)

/-- One rendered metric card of the summary section. -/
structure SummaryEntry where
  system : Cell
  avg_score : ℚ
  fatal_count : Nat
deriving DecidableEq

/-- The flattened `all_res` record list of `render_summary_section`:
(system, score, fatal) per result, cases in order. -/
def allRes (cases : List EvaluationCase) : List (Cell × ℚ × Bool) :=
  (cases.map (fun c => c.results.map
    (fun r => (r.system_name, r.score, r.is_fatal)))).flatten

/-- The statistics computed by `render_summary_section`: nothing for an
empty case list (early return); otherwise one entry per first-seen
distinct system of the flattened results, with pandas `mean` of the
scores and the sum of the fatal indicators. -/
def summaryEntryFor (res : List (Cell × ℚ × Bool)) (s : Cell) : SummaryEntry :=
  ⟨s, ((res.filter (fun x => Cell.peq x.1 s)).map (fun x => x.2.1)).sum /
        ((res.filter (fun x => Cell.peq x.1 s)).length : ℚ),
   ((res.filter (fun x => Cell.peq x.1 s)).filter (fun x => x.2.2)).length⟩

def render_summary_section (cases : List EvaluationCase) : List SummaryEntry :=
  if cases.isEmpty then []
  else (firstSeen ((allRes cases).map (fun x => x.1))).map
    (summaryEntryFor (allRes cases))

/-- Decidable equality of load results, for concrete evaluation. -/
instance {ε α : Type} [DecidableEq ε] [DecidableEq α] : DecidableEq (Except ε α) :=
  fun a b =>
    match a, b with
    | .ok x, .ok y =>
      if h : x = y then .isTrue (by rw [h])
      else .isFalse (fun hc => h (Except.ok.inj hc))
    | .ok _, .error _ => .isFalse (fun hc => Except.noConfusion hc)
    | .error _, .ok _ => .isFalse (fun hc => Except.noConfusion hc)
    | .error e, .error f =>
      if h : e = f then .isTrue (by rw [h])
      else .isFalse (fun hc => h (Except.error.inj hc))

/-- A default case, used only to state concrete witness instances. -/
def dummyCase : EvaluationCase := ⟨0, "", "", "", "", []⟩

/-- A default result, used only to state concrete witness instances. -/
def dummyResult : SystemResult := ⟨Cell.na, 0, false, "", "", ""⟩

/-- The column header shared by the concrete witness tables below. -/
def wHeader : List String :=
  ["CASE_ID", "SYSTEM", "QUESTION", "CITATION_RULE", "GROUND_TRUTH",
   "SOURCE_FILE", "TOTAL_SCORE", "S4_FATAL", "S4_REASON", "MODEL_OUTPUT",
   "AUDIT_REASONING"]

/-- A concrete well-formed input table: two systems, two cases, case ids
out of order, one missing citation rule, one missing (case 2, system B)
row. -/
def wTable : Table :=
  ⟨wHeader,
   [[.num 2, .str "A", .str "q2", .na, .str "g2", .str "f", .num 95,
     .str "no", .na, .str "outA2", .str "ar"],
    [.num 1, .str "A", .str "q1", .str "r1", .str "g1", .str "f", .num 100,
     .str "YES", .str "fr", .str "outA1", .str "ar1"],
    [.num 1, .str "B", .str "q1", .str "r1", .str "g1", .str "f",
     .num 55, .str "no", .na, .str "outB1", .str "ar2"]]⟩

/-- The case list `load_and_process_data` produces for `wTable`. -/
def wCases : List EvaluationCase :=
  [⟨1, "q1", "r1", "g1", "f",
    [⟨.str "A", 100, true, "outA1", "ar1", "fr"⟩,
     ⟨.str "B", 55, false, "outB1", "ar2", ""⟩]⟩,
   ⟨2, "q2", "无具体规则", "g2", "f",
    [⟨.str "A", 95, false, "outA2", "ar", ""⟩,
     ⟨.str "B", 0, false, "[系统端缺失数据]", "N/A", ""⟩]⟩]

/-- A one-row table whose TOTAL_SCORE is the uncoercible text "N/A". -/
def badScoreTable : Table :=
  ⟨wHeader,
   [[.num 1, .str "A", .str "q", .str "r", .str "g", .str "f",
     .str "N/A", .str "no", .na, .str "o", .str "a"]]⟩

/-- The table `wTable` with every column name lower-cased. -/
def lowerHeaderTable : Table :=
  ⟨wHeader.map (fun s => String.mk (s.data.map Char.toLower)), wTable.rows⟩

/-- A one-row table with a missing CITATION_RULE cell, for the fillna
default-substitution claims. -/
def fillnaProbeTable : Table :=
  ⟨wHeader,
   [[.num 1, .str "A", .str "q", .na, .str "g", .str "f", .num 80,
     .str "no", .na, .str "o", .str "a"]]⟩

/-- The SYSTEM column of the input table (empty when the column is
absent).  `fillna` never substitutes into this column, so it coincides
with the column the pipeline scans. -/
def systemColumn (t : Table) : List Cell :=
  match t.colIdx "SYSTEM" with
  | some si => t.rows.map (fun r => getCell r si)
  | none => []

/-- The CASE_ID column of the input table (empty when absent). -/
def caseIdColumn (t : Table) : List Cell :=
  match t.colIdx "CASE_ID" with
  | some ci => t.rows.map (fun r => getCell r ci)
  | none => []

/-- All results for one system across the whole case collection, in
case order, matched with pandas equality on the system name. -/
def occurrencesOf (cases : List EvaluationCase) (s : Cell) : List SystemResult :=
  ((cases.map (fun c => c.results)).flatten).filter
    (fun r => Cell.peq r.system_name s)

/-- Whether a load result is a success. -/
def isOkE : Except String (List EvaluationCase) → Bool
  | .ok _ => true
  | .error _ => false

/-- A rowless table without a SYSTEM column. -/
def noSysTable : Table := ⟨["CASE_ID", "TOTAL_SCORE"], []⟩

/-! ### Lemmas about the list helpers -/

theorem mem_firstSeenAux (x : Cell) :
    ∀ (l seen : List Cell), x ∈ firstSeenAux seen l ↔ x ∈ l ∧ x ∉ seen := by
  intro l
  induction l with
  | nil => intro seen; simp [firstSeenAux]
  | cons c cs ih =>
    intro seen
    rw [firstSeenAux]
    by_cases hc : c ∈ seen
    · rw [if_pos hc, ih]
      constructor
      · rintro ⟨hx, hns⟩
        exact ⟨List.mem_cons_of_mem _ hx, hns⟩
      · rintro ⟨hx, hns⟩
        rcases List.mem_cons.1 hx with rfl | hx'
        · exact absurd hc hns
        · exact ⟨hx', hns⟩
    · rw [if_neg hc, List.mem_cons, ih]
      have hcm : c ∉ seen := hc
      constructor
      · rintro (rfl | ⟨hx, hns⟩)
        · exact ⟨List.mem_cons_self _ _, hcm⟩
        · exact ⟨List.mem_cons_of_mem _ hx,
            fun hs => hns (List.mem_cons_of_mem _ hs)⟩
      · rintro ⟨hx, hns⟩
        rcases List.mem_cons.1 hx with rfl | hx'
        · exact Or.inl rfl
        · by_cases hxc : x = c
          · exact Or.inl hxc
          · exact Or.inr ⟨hx', fun hs => by
              rcases List.mem_cons.1 hs with rfl | hs'
              · exact hxc rfl
              · exact hns hs'⟩

theorem mem_firstSeen (x : Cell) (l : List Cell) : x ∈ firstSeen l ↔ x ∈ l := by
  rw [firstSeen, mem_firstSeenAux]
  simp

theorem nodup_firstSeenAux :
    ∀ (l seen : List Cell), (firstSeenAux seen l).Nodup := by
  intro l
  induction l with
  | nil => intro seen; simp [firstSeenAux]
  | cons c cs ih =>
    intro seen
    rw [firstSeenAux]
    by_cases hc : c ∈ seen
    · rw [if_pos hc]
      exact ih seen
    · rw [if_neg hc]
      refine List.nodup_cons.2 ⟨fun hmem => ?_, ih (c :: seen)⟩
      rcases (mem_firstSeenAux c cs (c :: seen)).1 hmem with ⟨_, hns⟩
      exact hns (List.mem_cons_self _ _)

theorem nodup_firstSeen (l : List Cell) : (firstSeen l).Nodup :=
  nodup_firstSeenAux l []

theorem findIdxA_eq_none {p : String → Bool} {l : List String} :
    findIdxA p l = none ↔ ∀ x ∈ l, p x = false := by
  induction l with
  | nil => simp [findIdxA]
  | cons x xs ih =>
    by_cases h : p x
    · simp [findIdxA, h]
    · simp [findIdxA, h, Option.map_eq_none', ih]

theorem findIdxA_some_get {p : String → Bool} :
    ∀ {l : List String} {j : Nat}, findIdxA p l = some j →
      ∃ x, l.get? j = some x ∧ p x = true := by
  intro l
  induction l with
  | nil => intro j h; simp [findIdxA] at h
  | cons x xs ih =>
    intro j h
    by_cases hp : p x
    · rw [findIdxA, if_pos hp] at h
      injection h with h
      exact ⟨x, by rw [← h]; rfl, hp⟩
    · rw [findIdxA, if_neg hp] at h
      rcases Option.map_eq_some'.1 h with ⟨i, hi, rfl⟩
      rcases ih hi with ⟨y, hy, hpy⟩
      exact ⟨y, by simpa using hy, hpy⟩

theorem colIdx_eq_none_iff (t : Table) (c : String) :
    t.colIdx c = none ↔ c ∉ t.header := by
  rw [Table.colIdx, findIdxA_eq_none]
  constructor
  · intro h hc
    have := h c hc
    simp at this
  · intro h x hx
    simp only [beq_eq_false_iff_ne, ne_eq]
    exact fun hxc => h (hxc ▸ hx)

theorem colIdx_some_get {t : Table} {c : String} {j : Nat}
    (h : t.colIdx c = some j) : t.header.get? j = some c := by
  rcases findIdxA_some_get h with ⟨x, hx, hpx⟩
  rw [beq_iff_eq] at hpx
  exact hpx ▸ hx

theorem mapExcept_ok_length {α β : Type} {f : α → Except String β} :
    ∀ {l : List α} {ys : List β}, mapExcept f l = .ok ys → ys.length = l.length := by
  intro l
  induction l with
  | nil =>
    intro ys h
    rw [mapExcept] at h
    injection h with h
    rw [← h]
    rfl
  | cons x xs ih =>
    intro ys h
    rw [mapExcept] at h
    cases hfx : f x with
    | error e => rw [hfx] at h; cases h
    | ok y =>
      rw [hfx] at h
      cases hm : mapExcept f xs with
      | error e => rw [hm] at h; cases h
      | ok ys' =>
        rw [hm] at h
        injection h with h
        rw [← h, List.length_cons, List.length_cons, ih hm]

theorem mapExcept_ok_mem {α β : Type} {f : α → Except String β} :
    ∀ {l : List α} {ys : List β}, mapExcept f l = .ok ys →
      ∀ y ∈ ys, ∃ x ∈ l, f x = .ok y := by
  intro l
  induction l with
  | nil =>
    intro ys h y hy
    rw [mapExcept] at h
    injection h with h
    rw [← h] at hy
    cases hy
  | cons x xs ih =>
    intro ys h y hy
    rw [mapExcept] at h
    cases hfx : f x with
    | error e => rw [hfx] at h; cases h
    | ok y' =>
      rw [hfx] at h
      cases hm : mapExcept f xs with
      | error e => rw [hm] at h; cases h
      | ok ys' =>
        rw [hm] at h
        injection h with h
        rw [← h] at hy
        rcases List.mem_cons.1 hy with rfl | hy'
        · exact ⟨x, List.mem_cons_self _ _, hfx⟩
        · rcases ih hm y hy' with ⟨x', hx', hfx'⟩
          exact ⟨x', List.mem_cons_of_mem _ hx', hfx'⟩

theorem mapExcept_ok_get {α β : Type} {f : α → Except String β} :
    ∀ {l : List α} {ys : List β}, mapExcept f l = .ok ys →
      ∀ {i : Nat} {y : β}, ys.get? i = some y →
        ∃ x, l.get? i = some x ∧ f x = .ok y := by
  intro l
  induction l with
  | nil =>
    intro ys h i y hy
    rw [mapExcept] at h
    injection h with h
    rw [← h] at hy
    cases hy
  | cons x xs ih =>
    intro ys h i y hy
    rw [mapExcept] at h
    cases hfx : f x with
    | error e => rw [hfx] at h; cases h
    | ok y' =>
      rw [hfx] at h
      cases hm : mapExcept f xs with
      | error e => rw [hm] at h; cases h
      | ok ys' =>
        rw [hm] at h
        injection h with h
        rw [← h] at hy
        cases i with
        | zero =>
          injection hy with hy
          exact ⟨x, rfl, hy ▸ hfx⟩
        | succ i =>
          rcases ih hm hy with ⟨x', hx', hfx'⟩
          exact ⟨x', hx', hfx'⟩

theorem mapExcept_ok_map {α β : Type} {f : α → Except String β} {g : β → α}
    (hg : ∀ x y, f x = .ok y → g y = x) :
    ∀ {l : List α} {ys : List β}, mapExcept f l = .ok ys → ys.map g = l := by
  intro l
  induction l with
  | nil =>
    intro ys h
    rw [mapExcept] at h
    injection h with h
    rw [← h]
    rfl
  | cons x xs ih =>
    intro ys h
    rw [mapExcept] at h
    cases hfx : f x with
    | error e => rw [hfx] at h; cases h
    | ok y =>
      rw [hfx] at h
      cases hm : mapExcept f xs with
      | error e => rw [hm] at h; cases h
      | ok ys' =>
        rw [hm] at h
        injection h with h
        rw [← h, List.map_cons, hg x y hfx, ih hm]

theorem mapExcept_error_of_mem {α β : Type} {f : α → Except String β} :
    ∀ {l : List α} {x : α} {e : String}, x ∈ l → f x = .error e →
      ∃ e', mapExcept f l = .error e' := by
  intro l
  induction l with
  | nil => intro x e hx; cases hx
  | cons a xs ih =>
    intro x e hx hfx
    rcases List.mem_cons.1 hx with rfl | hx'
    · exact ⟨e, by rw [mapExcept, hfx]⟩
    · cases hfa : f a with
      | error e' => exact ⟨e', by rw [mapExcept, hfa]⟩
      | ok y =>
        rcases ih hx' hfx with ⟨e', hm⟩
        exact ⟨e', by rw [mapExcept, hfa, hm]⟩

theorem length_insertCase (c : EvaluationCase) (l : List EvaluationCase) :
    (insertCase c l).length = l.length + 1 := by
  induction l with
  | nil => rfl
  | cons d ds ih =>
    rw [insertCase]
    split
    · rfl
    · rw [List.length_cons, ih, List.length_cons]

theorem length_sortCases (l : List EvaluationCase) :
    (sortCases l).length = l.length := by
  induction l with
  | nil => rfl
  | cons c cs ih => rw [sortCases, length_insertCase, ih, List.length_cons]

theorem mem_insertCase {x c : EvaluationCase} {l : List EvaluationCase} :
    x ∈ insertCase c l ↔ x = c ∨ x ∈ l := by
  induction l with
  | nil => simp [insertCase]
  | cons d ds ih =>
    rw [insertCase]
    split
    · simp
    · simp only [List.mem_cons, ih]
      tauto

theorem mem_sortCases {x : EvaluationCase} {l : List EvaluationCase} :
    x ∈ sortCases l ↔ x ∈ l := by
  induction l with
  | nil => simp [sortCases]
  | cons c cs ih => rw [sortCases, mem_insertCase, ih, List.mem_cons]

theorem sorted_insertCase {c : EvaluationCase} {l : List EvaluationCase}
    (h : List.Sorted (· ≤ ·) (l.map (fun d => d.case_id))) :
    List.Sorted (· ≤ ·) ((insertCase c l).map (fun d => d.case_id)) := by
  induction l with
  | nil => simp [insertCase]
  | cons d ds ih =>
    rw [List.map_cons, List.sorted_cons] at h
    rw [insertCase]
    split
    next hcd =>
      rw [List.map_cons, List.map_cons, List.sorted_cons, List.sorted_cons]
      exact ⟨fun b hb => by
        rcases List.mem_cons.1 hb with rfl | hb'
        · exact hcd
        · exact le_trans hcd (h.1 b hb'), h⟩
    next hcd =>
      rw [List.map_cons, List.sorted_cons]
      refine ⟨fun b hb => ?_, ih h.2⟩
      rcases List.mem_map.1 hb with ⟨a, ha, rfl⟩
      rcases mem_insertCase.1 ha with rfl | ha'
      · exact le_of_lt (lt_of_not_le hcd)
      · exact h.1 _ (List.mem_map_of_mem _ ha')

theorem sorted_sortCases (l : List EvaluationCase) :
    List.Sorted (· ≤ ·) ((sortCases l).map (fun d => d.case_id)) := by
  induction l with
  | nil => simp [sortCases]
  | cons c cs ih => rw [sortCases]; exact sorted_insertCase ih

theorem peq_na_right (x : Cell) : Cell.peq x Cell.na = false := by
  cases x <;> rfl

theorem peq_eq_true_iff {x s : Cell} (hs : s.isNa = false) :
    Cell.peq x s = true ↔ x = s := by
  cases x <;> cases s <;> simp_all [Cell.peq, Cell.isNa]

/-! ### Lemmas about `fillna` -/

theorem fillRowAux_length (h : List String) :
    ∀ (j0 : Nat) (r : List Cell), (fillRowAux h j0 r).length = r.length := by
  intro j0 r
  induction r generalizing j0 with
  | nil => rfl
  | cons c cs ih => rw [fillRowAux, List.length_cons, List.length_cons, ih]

theorem getCell_cons_zero (c : Cell) (cs : List Cell) : getCell (c :: cs) 0 = c := rfl

theorem getCell_cons_succ (c : Cell) (cs : List Cell) (j : Nat) :
    getCell (c :: cs) (j + 1) = getCell cs j := rfl

theorem getCell_fillRowAux (h : List String) :
    ∀ (r : List Cell) (j0 j : Nat),
      getCell (fillRowAux h j0 r) j =
        if j < r.length then fillCell h (j0 + j) (getCell r j) else Cell.na := by
  intro r
  induction r with
  | nil => intro j0 j; simp [fillRowAux, getCell]
  | cons c cs ih =>
    intro j0 j
    cases j with
    | zero => simp [fillRowAux, getCell]
    | succ j =>
      rw [fillRowAux, getCell_cons_succ, getCell_cons_succ, ih (j0 + 1) j,
        List.length_cons]
      by_cases hj : j < cs.length
      · rw [if_pos hj, if_pos (by omega)]
        congr 1
        omega
      · rw [if_neg hj, if_neg (by omega)]

theorem fillCell_of_ne_na {h : List String} {j : Nat} {c : Cell}
    (hc : c ≠ Cell.na) : fillCell h j c = c := by
  cases c with
  | na => exact absurd rfl hc
  | num q => rfl
  | str s => rfl

theorem fillCell_nondefault {h : List String} {j : Nat} {name : String}
    (hj : h.get? j = some name) (hd : defaultFor name = none) (c : Cell) :
    fillCell h j c = c := by
  cases c with
  | na => simp only [fillCell, hj, hd]
  | num q => rfl
  | str s => rfl

theorem colIdx_fillna (t : Table) (c : String) :
    t.fillna.colIdx c = t.colIdx c := rfl

theorem fillna_column_eq {t : Table} {j : Nat} {name : String}
    (hj : t.header.get? j = some name) (hd : defaultFor name = none) :
    t.fillna.rows.map (fun r => getCell r j) = t.rows.map (fun r => getCell r j) := by
  show (t.rows.map (fillRowAux t.header 0)).map (fun r => getCell r j) =
    t.rows.map (fun r => getCell r j)
  rw [List.map_map, List.map_eq_map_iff]
  intro r _
  show getCell (fillRowAux t.header 0 r) j = getCell r j
  rw [getCell_fillRowAux]
  by_cases hlt : j < r.length
  · rw [if_pos hlt, Nat.zero_add, fillCell_nondefault hj hd]
  · rw [if_neg hlt, getCell, List.getD_eq_default _ _ (by omega)]

/-! ### Inversion lemmas for the pipeline -/

theorem buildResult_ok_name {t : Table} {grp : List (List Cell)} {si : Nat}
    {s : Cell} {r : SystemResult} (h : buildResult t grp si s = .ok r) :
    r.system_name = s := by
  rw [buildResult] at h
  split at h
  · split at h
    · cases h
    · split at h
      · cases h
      · split at h
        · cases h
        · split at h
          · cases h
          · split at h
            · cases h
            · split at h
              · cases h
              · injection h with h
                rw [← h]
  · injection h with h
    rw [← h]
    rfl

theorem buildResult_of_find_none {t : Table} {grp : List (List Cell)}
    {si : Nat} {s : Cell}
    (h : grp.find? (fun r => Cell.peq (getCell r si) s) = none) :
    buildResult t grp si s = .ok (placeholderResult s) := by
  rw [buildResult, h]

theorem buildResult_error {t : Table} {grp : List (List Cell)} {si : Nat}
    {s : Cell} {row : List Cell}
    (hf : grp.find? (fun r => Cell.peq (getCell r si) s) = some row)
    (hbad : t.colIdx "TOTAL_SCORE" = none ∨
      (∃ ti, t.colIdx "TOTAL_SCORE" = some ti ∧
        (getCell row ti).pyFloatVal = none) ∨
      t.colIdx "S4_FATAL" = none) :
    ∃ e, buildResult t grp si s = .error e := by
  rcases hbad with h1 | ⟨ti, h2, h3⟩ | h4
  · exact ⟨_, by simp only [buildResult, hf, h1]; rfl⟩
  · exact ⟨_, by simp only [buildResult, hf, h2, h3]; rfl⟩
  · cases hts : t.colIdx "TOTAL_SCORE" with
    | none => exact ⟨_, by simp only [buildResult, hf, hts]; rfl⟩
    | some ti =>
      cases hpf : (getCell row ti).pyFloatVal with
      | none => exact ⟨_, by simp only [buildResult, hf, hts, hpf]; rfl⟩
      | some fv =>
        cases hfin : fv.finite? with
        | none => exact ⟨_, by simp only [buildResult, hf, hts, hpf, hfin]; rfl⟩
        | some q =>
          exact ⟨_, by simp only [buildResult, hf, hts, hpf, hfin, h4]; rfl⟩

theorem buildCase_ok_inv {t : Table} {systems : List Cell} {si ci : Nat}
    {k : Cell} {c : EvaluationCase} (h : buildCase t systems si ci k = .ok c) :
    mapExcept (buildResult t (groupRows t ci k) si) systems = .ok c.results ∧
    k.pyInt = some c.case_id := by
  rw [buildCase] at h
  split at h
  · cases h
  · split at h
    · cases h
    next results hres =>
      split at h
      · cases h
      next cid hcid =>
        split at h
        · cases h
        · split at h
          · cases h
          · split at h
            · cases h
            · injection h with h
              subst h
              exact ⟨hres, hcid⟩

theorem buildCase_error {t : Table} {systems : List Cell} {si ci : Nat}
    {k s : Cell} {e : String} (hs : s ∈ systems)
    (hgrp : groupRows t ci k ≠ [])
    (hr : buildResult t (groupRows t ci k) si s = .error e) :
    ∃ e', buildCase t systems si ci k = .error e' := by
  rw [buildCase]
  cases hh : (groupRows t ci k).head? with
  | none => exact absurd (List.head?_eq_none_iff.1 hh) hgrp
  | some fr =>
    rcases mapExcept_error_of_mem hs hr with ⟨e', hm⟩
    rw [hm]
    exact ⟨e', rfl⟩

theorem processTable_ok_inv {t : Table} {cases : List EvaluationCase}
    (h : processTable t = .ok cases) :
    ∃ si ci cs,
      t.fillna.colIdx "SYSTEM" = some si ∧
      t.fillna.colIdx "CASE_ID" = some ci ∧
      mapExcept (buildCase t.fillna
        (firstSeen (t.fillna.rows.map (fun r => getCell r si))) si ci)
        (firstSeen ((t.fillna.rows.map (fun r => getCell r ci)).filter
          (fun c => !c.isNa))) = .ok cs ∧
      cases = sortCases cs := by
  rw [processTable] at h
  split at h
  · cases h
  next si hS =>
    split at h
    · cases h
    next ci hC =>
      split at h
      · cases h
      next cs hm =>
        injection h with h
        exact ⟨si, ci, cs, hS, hC, hm, h.symm⟩

theorem uniqueSystems_eq {t : Table} {si : Nat}
    (hS : t.fillna.colIdx "SYSTEM" = some si) :
    uniqueSystems t = firstSeen (t.fillna.rows.map (fun r => getCell r si)) := by
  rw [uniqueSystems, hS]

theorem caseKeys_eq {t : Table} {ci : Nat}
    (hC : t.fillna.colIdx "CASE_ID" = some ci) :
    caseKeys t = firstSeen ((t.fillna.rows.map (fun r => getCell r ci)).filter
      (fun c => !c.isNa)) := by
  rw [caseKeys, hC]

theorem groupFind_eq {t : Table} {ci si : Nat} {k s : Cell}
    (hC : t.fillna.colIdx "CASE_ID" = some ci)
    (hS : t.fillna.colIdx "SYSTEM" = some si) :
    groupFind t k s =
      (groupRows t.fillna ci k).find? (fun r => Cell.peq (getCell r si) s) := by
  rw [groupFind, hC, hS]

theorem processTable_mem {t : Table} {cases : List EvaluationCase}
    {c : EvaluationCase} (h : processTable t = .ok cases) (hc : c ∈ cases) :
    ∃ si ci k,
      t.fillna.colIdx "SYSTEM" = some si ∧
      t.fillna.colIdx "CASE_ID" = some ci ∧
      k ∈ caseKeys t ∧
      buildCase t.fillna (uniqueSystems t) si ci k = .ok c := by
  rcases processTable_ok_inv h with ⟨si, ci, cs, hS, hC, hm, rfl⟩
  rw [mem_sortCases] at hc
  rcases mapExcept_ok_mem hm c hc with ⟨k, hk, hbc⟩
  refine ⟨si, ci, k, hS, hC, ?_, ?_⟩
  · rw [caseKeys_eq hC]
    exact hk
  · rw [uniqueSystems_eq hS]
    exact hbc

theorem load_raised {t : Table} {e : String} (h : processTable t = .error e) :
    load_and_process_data (.ok t) = .raised e := by
  rw [load_and_process_data, h]

/-! ### Claim theorems -/

/-- C2: the badge classifier evaluates its branches in precedence order
with first match winning: a true fatal flag yields the fatal badge
regardless of score; otherwise score ≥ 100 is perfect, score ≥ 90 is
excellent, score < 60 is a fail, and 60 ≤ score < 90 is qualified; the
band lower bounds 100, 90 and 60 are inclusive. -/
theorem c2_classifier_bands (score : ℚ) (fatal : Bool) :
    (fatal = true → get_badge_html score fatal = badgeFatal) ∧
    (fatal = false → 100 ≤ score →
      get_badge_html score fatal = badgePerfect (pyTrunc score)) ∧
    (fatal = false → 90 ≤ score → score < 100 →
      get_badge_html score fatal = badgeExcellent (pyTrunc score)) ∧
    (fatal = false → 60 ≤ score → score < 90 →
      get_badge_html score fatal = badgeNeutral (pyTrunc score)) ∧
    (fatal = false → score < 60 →
      get_badge_html score fatal = badgeFail (pyTrunc score)) := by
  refine ⟨fun hf => ?_, fun hf h100 => ?_, fun hf h90 hlt => ?_,
    fun hf h60 hlt => ?_, fun hf hlt => ?_⟩
  · rw [get_badge_html, if_pos hf]
  · rw [get_badge_html, if_neg (by simp [hf]), if_pos h100]
  · rw [get_badge_html, if_neg (by simp [hf]), if_neg (not_le.2 hlt), if_pos h90]
  · rw [get_badge_html, if_neg (by simp [hf]),
      if_neg (not_le.2 (lt_of_lt_of_le hlt (by norm_num))),
      if_neg (not_le.2 hlt), if_neg (not_lt.2 h60)]
  · rw [get_badge_html, if_neg (by simp [hf]),
      if_neg (not_le.2 (lt_of_lt_of_le hlt (by norm_num))),
      if_neg (not_le.2 (lt_of_lt_of_le hlt (by norm_num))), if_pos hlt]

/-- Witness for C2 at the boundary scores of the specification
(99.9, 89.9 and 59.9 written as explicit fractions). -/
theorem c2_classifier_bands_witness :
    get_badge_html 100 true = badgeFatal ∧
    get_badge_html 0 true = badgeFatal ∧
    get_badge_html 100 false = badgePerfect 100 ∧
    get_badge_html (mkRat 999 10) false = badgeExcellent 99 ∧
    get_badge_html 90 false = badgeExcellent 90 ∧
    get_badge_html (mkRat 899 10) false = badgeNeutral 89 ∧
    get_badge_html 60 false = badgeNeutral 60 ∧
    get_badge_html (mkRat 599 10) false = badgeFail 59 := by
  have h999 : (mkRat 999 10 : ℚ) = 999 / 10 := by
    rw [Rat.mkRat_eq_div]
    norm_num
  have h899 : (mkRat 899 10 : ℚ) = 899 / 10 := by
    rw [Rat.mkRat_eq_div]
    norm_num
  have h599 : (mkRat 599 10 : ℚ) = 599 / 10 := by
    rw [Rat.mkRat_eq_div]
    norm_num
  refine ⟨(c2_classifier_bands 100 true).1 rfl,
    (c2_classifier_bands 0 true).1 rfl,
    ((c2_classifier_bands 100 false).2.1 rfl (by norm_num)).trans
      (congrArg badgePerfect (by decide)),
    ((c2_classifier_bands (mkRat 999 10) false).2.2.1 rfl
      (by rw [h999]; norm_num) (by rw [h999]; norm_num)).trans
      (congrArg badgeExcellent (by decide)),
    ((c2_classifier_bands 90 false).2.2.1 rfl (by norm_num)
      (by norm_num)).trans (congrArg badgeExcellent (by decide)),
    ((c2_classifier_bands (mkRat 899 10) false).2.2.2.1 rfl
      (by rw [h899]; norm_num) (by rw [h899]; norm_num)).trans
      (congrArg badgeNeutral (by decide)),
    ((c2_classifier_bands 60 false).2.2.2.1 rfl (by norm_num)
      (by norm_num)).trans (congrArg badgeNeutral (by decide)),
    ((c2_classifier_bands (mkRat 599 10) false).2.2.2.2 rfl
      (by rw [h599]; norm_num)).trans (congrArg badgeFail (by decide))⟩

/-- C1: every case of a successful load carries one result per distinct
SYSTEM value of the whole table, in the global first-seen order, so the
name sequence (hence its length) is identical across cases. -/
theorem c1_uniform_result_slots (t : Table) (cases : List EvaluationCase)
    (h : processTable t = .ok cases) :
    (∀ c ∈ cases, c.results.map (fun r => r.system_name) = uniqueSystems t) ∧
    (uniqueSystems t).Nodup ∧
    (∀ x, x ∈ uniqueSystems t ↔ x ∈ systemColumn t) := by
  refine ⟨fun c hc => ?_, ?_, fun x => ?_⟩
  · rcases processTable_mem h hc with ⟨si, ci, k, hS, hC, hk, hbc⟩
    rcases buildCase_ok_inv hbc with ⟨hres, _⟩
    exact mapExcept_ok_map (fun s r hr => buildResult_ok_name hr) hres
  · rw [uniqueSystems]
    split
    · exact nodup_firstSeen _
    · exact List.nodup_nil
  · rw [uniqueSystems, systemColumn, colIdx_fillna]
    cases hS : t.colIdx "SYSTEM" with
    | none => simp
    | some si =>
      rw [mem_firstSeen, fillna_column_eq (colIdx_some_get hS) (by decide)]

/-- Witness for C1 on the concrete table `wTable`. -/
theorem c1_uniform_result_slots_witness :
    (wCases.headD dummyCase).results.map (fun r => r.system_name) =
      uniqueSystems wTable :=
  (c1_uniform_result_slots wTable wCases (by decide)).1
    (wCases.headD dummyCase) (by decide)

/-- C4: a successful load yields the cases sorted ascending by case id,
one case per distinct non-missing CASE_ID cell of the table. -/
theorem c4_sorted_one_case_per_id (t : Table) (cases : List EvaluationCase)
    (h : processTable t = .ok cases) :
    List.Sorted (· ≤ ·) (cases.map (fun c => c.case_id)) ∧
    cases.length = (caseKeys t).length ∧
    (caseKeys t).Nodup ∧
    (∀ x, x ∈ caseKeys t ↔ x.isNa = false ∧ x ∈ caseIdColumn t) := by
  obtain ⟨si, ci, cs, hS, hC, hm, rfl⟩ := processTable_ok_inv h
  have hCo : t.colIdx "CASE_ID" = some ci := hC
  refine ⟨sorted_sortCases cs, ?_, ?_, fun x => ?_⟩
  · rw [length_sortCases, mapExcept_ok_length hm, caseKeys_eq hC]
  · rw [caseKeys]
    split
    · exact nodup_firstSeen _
    · exact List.nodup_nil
  · rw [caseKeys_eq hC, mem_firstSeen, List.mem_filter, caseIdColumn, hCo,
      fillna_column_eq (colIdx_some_get hCo) (by decide)]
    constructor
    · rintro ⟨hx, hb⟩
      exact ⟨by simpa using hb, hx⟩
    · rintro ⟨hb, hx⟩
      exact ⟨hx, by simpa using hb⟩

/-- Witness for C4 on the concrete table `wTable`. -/
theorem c4_sorted_one_case_per_id_witness :
    wCases.length = (caseKeys wTable).length :=
  (c4_sorted_one_case_per_id wTable wCases (by decide)).2.1

/-- C3 counterexample: a one-row table with the uncoercible score "N/A"
makes `load_and_process_data` raise an uncaught exception; the caller
does NOT receive an empty result with a displayed error message (that
outcome is reserved for file-read failures). -/
theorem c3_counterexample_raises :
    load_and_process_data (.ok badScoreTable) =
      .raised "ValueError: could not convert string to float" ∧
    (load_and_process_data (.ok badScoreTable)).isErrorShown = false := by
  constructor
  · decide
  · decide

/-- C3 (amended): a missing SYSTEM or CASE_ID column, and a missing
TOTAL_SCORE / S4_FATAL column or a score cell Python's `float` rejects
(`pyFloatVal = none` — the faithful float grammar, under which NaN
cells and exponent/`inf`/`nan`/underscore texts coerce successfully)
reached through the first matching row of some (case, system) slot,
abort the whole load with a propagated exception: the caller receives
no case list at all (in particular never a partial one). -/
theorem c3_whole_load_aborts (t : Table) :
    (t.colIdx "SYSTEM" = none →
      load_and_process_data (.ok t) = .raised "KeyError: SYSTEM") ∧
    (t.colIdx "SYSTEM" ≠ none → t.colIdx "CASE_ID" = none →
      load_and_process_data (.ok t) = .raised "KeyError: CASE_ID") ∧
    (∀ k s row, k ∈ caseKeys t → s ∈ uniqueSystems t →
      groupFind t k s = some row →
      (t.colIdx "TOTAL_SCORE" = none ∨
        (∃ ti, t.colIdx "TOTAL_SCORE" = some ti ∧
          (getCell row ti).pyFloatVal = none) ∨
        t.colIdx "S4_FATAL" = none) →
      ∃ e, load_and_process_data (.ok t) = .raised e) := by
  refine ⟨fun hS => ?_, fun hS hC => ?_, fun k s row hk hs hgf hbad => ?_⟩
  · have hS' : t.fillna.colIdx "SYSTEM" = none := hS
    apply load_raised
    rw [processTable, hS']
  · cases hS2 : t.fillna.colIdx "SYSTEM" with
    | none => exact absurd hS2 hS
    | some si =>
      have hC' : t.fillna.colIdx "CASE_ID" = none := hC
      apply load_raised
      rw [processTable, hS2, hC']
  · cases hC2 : t.fillna.colIdx "CASE_ID" with
    | none =>
      rw [caseKeys, hC2] at hk
      cases hk
    | some ci =>
      cases hS2 : t.fillna.colIdx "SYSTEM" with
      | none =>
        rw [uniqueSystems, hS2] at hs
        cases hs
      | some si =>
        rw [groupFind_eq hC2 hS2] at hgf
        rw [uniqueSystems_eq hS2] at hs
        rw [caseKeys_eq hC2] at hk
        have hbad' : t.fillna.colIdx "TOTAL_SCORE" = none ∨
            (∃ ti, t.fillna.colIdx "TOTAL_SCORE" = some ti ∧
              (getCell row ti).pyFloatVal = none) ∨
            t.fillna.colIdx "S4_FATAL" = none := hbad
        obtain ⟨e1, hbr⟩ := buildResult_error hgf hbad'
        obtain ⟨e2, hbc⟩ := buildCase_error hs
          (List.ne_nil_of_mem (List.mem_of_find?_eq_some hgf)) hbr
        obtain ⟨e3, hme⟩ := mapExcept_error_of_mem hk hbc
        refine ⟨e3, load_raised ?_⟩
        simp only [processTable, hS2, hC2, hme]

/-- Witness for C3 (amended) at a table without a SYSTEM column. -/
theorem c3_whole_load_aborts_witness :
    load_and_process_data (.ok noSysTable) = .raised "KeyError: SYSTEM" :=
  (c3_whole_load_aborts noSysTable).1 (by decide)

/-- The slot of a system with no matching row in the case's group is the
synthesized placeholder.  The key `k` is pinned down as the unique group
key coercing to the case's id. -/
theorem case_slot_of_key {t : Table} {cases : List EvaluationCase}
    {c : EvaluationCase} {k : Cell}
    (h : processTable t = .ok cases) (hc : c ∈ cases)
    (hk : k ∈ caseKeys t) (hkid : k.pyInt = some c.case_id)
    (huniq : ∀ k' ∈ caseKeys t, k'.pyInt = some c.case_id → k' = k) :
    ∀ i r, c.results.get? i = some r →
      groupFind t k r.system_name = none →
      r = placeholderResult r.system_name := by
  rcases processTable_mem h hc with ⟨si, ci, k0, hS, hC, hk0, hbc⟩
  rcases buildCase_ok_inv hbc with ⟨hres, hcid⟩
  have hk0k : k0 = k := huniq k0 hk0 hcid
  subst hk0k
  intro i r hget hnone
  rcases mapExcept_ok_get hres hget with ⟨s, hsi, hbr⟩
  have hname : r.system_name = s := buildResult_ok_name hbr
  rw [groupFind_eq hC hS, hname] at hnone
  have hph := (buildResult_of_find_none (t := t.fillna) hnone).symm.trans hbr
  injection hph with hph
  rw [hname, ← hph]

/-- C5: for every case and every system of the global list whose name
matches no row of the case's group (pandas equality), the emitted slot is
the synthesized placeholder: score 0.0, not fatal, and the fixed
missing-data marker texts. -/
theorem c5_missing_row_placeholder (t : Table) (cases : List EvaluationCase)
    (c : EvaluationCase) (k : Cell)
    (h : processTable t = .ok cases) (hc : c ∈ cases)
    (hk : k ∈ caseKeys t) (hkid : k.pyInt = some c.case_id)
    (huniq : ∀ k' ∈ caseKeys t, k'.pyInt = some c.case_id → k' = k) :
    ∀ i r, c.results.get? i = some r →
      groupFind t k r.system_name = none →
      r = placeholderResult r.system_name :=
  case_slot_of_key h hc hk hkid huniq

/-- Witness for C5: in `wTable`, system B has no row for case 2, and the
produced slot is exactly the placeholder result. -/
theorem c5_missing_row_placeholder_witness :
    (wCases.getD 1 dummyCase).results.getD 1 dummyResult =
      placeholderResult (Cell.str "B") :=
  ((c5_missing_row_placeholder wTable wCases (wCases.getD 1 dummyCase)
    (Cell.num 2) (by decide) (by decide) (by decide) (by decide) (by decide))
    1 ((wCases.getD 1 dummyCase).results.getD 1 dummyResult)
    (by decide) (by decide)).trans (by decide)

/-- Names of the results of any case of a successful load are the global
first-seen system list. -/
theorem results_names_eq {t : Table} {cases : List EvaluationCase}
    {c : EvaluationCase} (h : processTable t = .ok cases) (hc : c ∈ cases) :
    c.results.map (fun r => r.system_name) = uniqueSystems t := by
  rcases processTable_mem h hc with ⟨si, ci, k, hS, hC, hk, hbc⟩
  rcases buildCase_ok_inv hbc with ⟨hres, _⟩
  exact mapExcept_ok_map (fun s r hr => buildResult_ok_name hr) hres

theorem filter_peq_nil {s : Cell} (hna : s.isNa = false) :
    ∀ {l : List SystemResult},
      s ∉ l.map (fun r => r.system_name) →
      l.filter (fun r => Cell.peq r.system_name s) = [] := by
  intro l
  induction l with
  | nil => intro _; rfl
  | cons a l ih =>
    intro hs
    rw [List.map_cons, List.mem_cons] at hs
    push_neg at hs
    rw [List.filter_cons, if_neg (by
      simp only [peq_eq_true_iff hna]
      exact fun he => hs.1 he.symm)]
    exact ih hs.2

theorem filter_peq_length_one {s : Cell} (hna : s.isNa = false) :
    ∀ {l : List SystemResult},
      (l.map (fun r => r.system_name)).Nodup →
      s ∈ l.map (fun r => r.system_name) →
      (l.filter (fun r => Cell.peq r.system_name s)).length = 1 := by
  intro l
  induction l with
  | nil => intro _ hs; cases hs
  | cons a l ih =>
    intro hnd hs
    rw [List.map_cons, List.nodup_cons] at hnd
    rw [List.map_cons, List.mem_cons] at hs
    rcases hs with rfl | hs'
    · rw [List.filter_cons, if_pos (by
        rw [peq_eq_true_iff hna]), List.length_cons,
        filter_peq_nil hna hnd.1]
      rfl
    · have hne : a.system_name ≠ s := fun he => hnd.1 (he ▸ hs')
      rw [List.filter_cons, if_neg (by
        simp only [peq_eq_true_iff hna]
        exact hne)]
      exact ih hnd.2 hs'

theorem occurrencesOf_cons (c : EvaluationCase) (cs : List EvaluationCase)
    (s : Cell) :
    occurrencesOf (c :: cs) s =
      c.results.filter (fun r => Cell.peq r.system_name s) ++
        occurrencesOf cs s := by
  rw [occurrencesOf, List.map_cons, List.flatten_cons, List.filter_append]
  rfl

theorem nodup_uniqueSystems (t : Table) : (uniqueSystems t).Nodup := by
  rw [uniqueSystems]
  split
  · exact nodup_firstSeen _
  · exact List.nodup_nil

theorem occurrencesOf_length_of_one {cases : List EvaluationCase} {s : Cell}
    (hone : ∀ c ∈ cases,
      (c.results.filter (fun r => Cell.peq r.system_name s)).length = 1) :
    (occurrencesOf cases s).length = cases.length := by
  induction cases with
  | nil => rfl
  | cons c cs ih =>
    rw [occurrencesOf_cons, List.length_append, hone c (List.mem_cons_self _ _),
      ih (fun c' hc' => hone c' (List.mem_cons_of_mem _ hc')), List.length_cons]
    omega

/-- C10: the per-system summary statistics range over one occurrence per
case — the synthesized placeholders included — so a system's reported
mean is taken over all cases, each missing case contributing score 0.0
(and a false fatal flag). -/
theorem c10_mean_over_all_cases (t : Table) (cases : List EvaluationCase)
    (s : Cell) (h : processTable t = .ok cases) (hs : s ∈ uniqueSystems t)
    (hna : s.isNa = false) :
    (occurrencesOf cases s).length = cases.length ∧
    (∀ c ∈ cases, ∀ k, k ∈ caseKeys t → k.pyInt = some c.case_id →
      (∀ k' ∈ caseKeys t, k'.pyInt = some c.case_id → k' = k) →
      groupFind t k s = none →
      ∀ r ∈ c.results, r.system_name = s →
        r.score = 0 ∧ r.is_fatal = false) := by
  constructor
  · refine occurrencesOf_length_of_one (fun c hc => ?_)
    refine filter_peq_length_one hna ?_ ?_
    · rw [results_names_eq h hc]
      exact nodup_uniqueSystems t
    · rw [results_names_eq h hc]
      exact hs
  · intro c hc k hk hkid huniq hnone r hr hrs
    rcases List.mem_iff_get?.1 hr with ⟨i, hget⟩
    have := case_slot_of_key h hc hk hkid huniq i r hget (by rw [hrs]; exact hnone)
    rw [this]
    exact ⟨rfl, rfl⟩

/-- Witness for C10: system B occurs once per case of `wCases` (two
occurrences for two cases, placeholder included). -/
theorem c10_mean_over_all_cases_witness :
    (occurrencesOf wCases (Cell.str "B")).length = wCases.length :=
  (c10_mean_over_all_cases wTable wCases (Cell.str "B") (by decide)
    (by decide) (by decide)).1

theorem allRes_cons (c : EvaluationCase) (cs : List EvaluationCase) :
    allRes (c :: cs) =
      c.results.map (fun r => (r.system_name, r.score, r.is_fatal)) ++
        allRes cs := by
  rw [allRes, List.map_cons, List.flatten_cons]
  rfl

theorem filter_map_triple (l : List SystemResult)
    (p : Cell × ℚ × Bool → Bool) :
    (l.map (fun r => (r.system_name, r.score, r.is_fatal))).filter p =
      (l.filter (fun r => p (r.system_name, r.score, r.is_fatal))).map
        (fun r => (r.system_name, r.score, r.is_fatal)) := by
  induction l with
  | nil => rfl
  | cons a l ih =>
    rw [List.map_cons, List.filter_cons, List.filter_cons]
    by_cases hp : p (a.system_name, a.score, a.is_fatal)
    · rw [if_pos hp, if_pos hp, List.map_cons, ih]
    · rw [if_neg hp, if_neg hp, ih]

theorem allRes_filter_peq (cases : List EvaluationCase) (s : Cell) :
    (allRes cases).filter (fun x => Cell.peq x.1 s) =
      (occurrencesOf cases s).map
        (fun r => (r.system_name, r.score, r.is_fatal)) := by
  induction cases with
  | nil => rfl
  | cons c cs ih =>
    rw [allRes_cons, List.filter_append, occurrencesOf_cons, List.map_append,
      ih, filter_map_triple]

theorem mem_allRes {cases : List EvaluationCase} {x : Cell × ℚ × Bool} :
    x ∈ allRes cases ↔
      ∃ c ∈ cases, ∃ r ∈ c.results,
        (r.system_name, r.score, r.is_fatal) = x := by
  rw [allRes, List.mem_flatten]
  constructor
  · rintro ⟨l, hl, hx⟩
    rcases List.mem_map.1 hl with ⟨c, hc, rfl⟩
    rcases List.mem_map.1 hx with ⟨r, hr, hrx⟩
    exact ⟨c, hc, r, hr, hrx⟩
  · rintro ⟨c, hc, r, hr, hrx⟩
    exact ⟨_, List.mem_map_of_mem _ hc, List.mem_map.2 ⟨r, hr, hrx⟩⟩

/-- C6: for a non-empty case collection, the summary has exactly one
entry per system name occurring in some case's results (a system with no
occurrence is absent, with no failure), and each entry carries the plain
arithmetic mean of that system's scores over all its occurrences (fatal
ones included, unweighted) and the count of its fatal occurrences. -/
theorem c6_summary_statistics (cases : List EvaluationCase) (hne : cases ≠ [])
    (s : Cell) :
    ((∃ e ∈ render_summary_section cases, e.system = s) ↔
      ∃ c ∈ cases, ∃ r ∈ c.results, r.system_name = s) ∧
    ∀ e ∈ render_summary_section cases,
      e.avg_score =
        ((occurrencesOf cases e.system).map (fun r => r.score)).sum /
          ((occurrencesOf cases e.system).length : ℚ) ∧
      (e.fatal_count : Nat) =
        ((occurrencesOf cases e.system).filter (fun r => r.is_fatal)).length := by
  have hemp : ¬ (cases.isEmpty = true) := by
    cases cases with
    | nil => exact absurd rfl hne
    | cons c cs => simp
  rw [render_summary_section, if_neg hemp]
  constructor
  · constructor
    · rintro ⟨e, he, rfl⟩
      rcases List.mem_map.1 he with ⟨s', hs', rfl⟩
      rw [mem_firstSeen] at hs'
      rcases List.mem_map.1 hs' with ⟨x, hx, hx1⟩
      rcases mem_allRes.1 hx with ⟨c, hc, r, hr, hrx⟩
      refine ⟨c, hc, r, hr, ?_⟩
      show r.system_name = s'
      rw [← hx1, ← hrx]
    · rintro ⟨c, hc, r, hr, hrs⟩
      refine ⟨summaryEntryFor (allRes cases) s, List.mem_map_of_mem _ ?_, rfl⟩
      rw [mem_firstSeen]
      exact List.mem_map.2
        ⟨(r.system_name, r.score, r.is_fatal),
         mem_allRes.2 ⟨c, hc, r, hr, rfl⟩, hrs⟩
  · intro e he
    rcases List.mem_map.1 he with ⟨s', hs', rfl⟩
    simp only [summaryEntryFor]
    rw [allRes_filter_peq, List.map_map, List.length_map, filter_map_triple,
      List.length_map]
    exact ⟨rfl, rfl⟩

/-- Witness for C6 on the concrete case collection `wCases`. -/
theorem c6_summary_statistics_witness :
    ((render_summary_section wCases).headD ⟨Cell.na, 0, 0⟩).avg_score =
      ((occurrencesOf wCases
          ((render_summary_section wCases).headD ⟨Cell.na, 0, 0⟩).system).map
        (fun r => r.score)).sum /
      ((occurrencesOf wCases
          ((render_summary_section wCases).headD ⟨Cell.na, 0, 0⟩).system).length : ℚ) :=
  (((c6_summary_statistics wCases (by decide) Cell.na).2
    ((render_summary_section wCases).headD ⟨Cell.na, 0, 0⟩)
    (by
      rw [show render_summary_section wCases =
        summaryEntryFor (allRes wCases) (Cell.str "A") ::
          [summaryEntryFor (allRes wCases) (Cell.str "B")] from rfl]
      exact List.mem_cons_self _ _))).1

/-- C7 counterexample: a missing CITATION_RULE cell is filled with the
fixed source literal, which is not the string "no specific rule" the
claim names. -/
theorem c7_counterexample_default_literal :
    getCell (fillnaProbeTable.fillna.rows.getD 0 []) 3 = Cell.str "无具体规则" ∧
    getCell (fillnaProbeTable.fillna.rows.getD 0 []) 3 ≠
      Cell.str "no specific rule" := by
  constructor
  · decide
  · decide

/-- C7 (amended): `fillna` is applied once, table-wide, before grouping;
it fills exactly the missing cells of the seven columns of
`fillnaDefaults` with their fixed source literals ("无具体规则" etc.),
leaves every other cell (scores, flags and identifiers included)
untouched, and leaves the header and row count unchanged. -/
theorem c7_fillna_substitution (t : Table) (i j : Nat) (row : List Cell)
    (hrow : t.rows.get? i = some row) (hj : j < row.length) :
    (t.fillna.header = t.header ∧ t.fillna.rows.length = t.rows.length) ∧
    (∃ row', t.fillna.rows.get? i = some row' ∧ row'.length = row.length ∧
      getCell row' j = fillCell t.header j (getCell row j)) ∧
    (getCell row j ≠ Cell.na → fillCell t.header j (getCell row j) = getCell row j) ∧
    (∀ name, t.header.get? j = some name →
      name ∉ fillnaDefaults.map (fun p => p.1) →
      fillCell t.header j (getCell row j) = getCell row j) ∧
    (∀ name d, t.header.get? j = some name → getCell row j = Cell.na →
      defaultFor name = some d →
      fillCell t.header j (getCell row j) = Cell.str d) := by
  refine ⟨⟨rfl, ?_⟩, ?_, ?_, ?_, ?_⟩
  · show (t.rows.map (fillRowAux t.header 0)).length = t.rows.length
    rw [List.length_map]
  · refine ⟨fillRowAux t.header 0 row, ?_, fillRowAux_length _ _ _, ?_⟩
    · show (t.rows.map (fillRowAux t.header 0)).get? i = _
      rw [List.get?_map, hrow]
      rfl
    · rw [getCell_fillRowAux, if_pos hj, Nat.zero_add]
  · intro hne
    exact fillCell_of_ne_na hne
  · intro name hname hnot
    have hd : defaultFor name = none := by
      rw [defaultFor, Option.map_eq_none', List.find?_eq_none]
      intro p hp
      simp only [beq_iff_eq]
      intro hpe
      exact hnot (hpe ▸ List.mem_map_of_mem _ hp)
    exact fillCell_nondefault hname hd _
  · intro name d hname hcell hdef
    rw [hcell]
    simp only [fillCell, hname, hdef]

/-- Witness for C7 (amended): the missing CITATION_RULE cell of the
probe table is filled with the fixed literal. -/
theorem c7_fillna_substitution_witness :
    fillCell fillnaProbeTable.header 3
      (getCell (fillnaProbeTable.rows.getD 0 []) 3) = Cell.str "无具体规则" :=
  (c7_fillna_substitution fillnaProbeTable 0 3
    (fillnaProbeTable.rows.getD 0 []) (by decide) (by decide)).2.2.2.2
    "CITATION_RULE" "无具体规则" (by decide) (by decide) (by decide)

/-- C8 counterexample: the table equal to `wTable` up to letter case of
its column names does not load at all (KeyError), while `wTable` itself
loads successfully — column names are not accepted case-insensitively. -/
theorem c8_counterexample_lowercase_header :
    isOkE (processTable wTable) = true ∧
    processTable lowerHeaderTable = .error "KeyError: SYSTEM" := by
  constructor
  · decide
  · decide

/-- C8 (amended): column names are matched by exact, case-sensitive
string equality: any successful load requires the exact-case names
SYSTEM and CASE_ID to occur in the header (differently cased variants
fail the lookup and abort the load). -/
theorem c8_case_sensitive_columns (t : Table) (cases : List EvaluationCase)
    (h : processTable t = .ok cases) :
    "SYSTEM" ∈ t.header ∧ "CASE_ID" ∈ t.header := by
  obtain ⟨si, ci, cs, hS, hC, _, _⟩ := processTable_ok_inv h
  have hS' : t.colIdx "SYSTEM" = some si := hS
  have hC' : t.colIdx "CASE_ID" = some ci := hC
  constructor
  · by_contra hm
    rw [(colIdx_eq_none_iff t "SYSTEM").2 hm] at hS'
    cases hS'
  · by_contra hm
    rw [(colIdx_eq_none_iff t "CASE_ID").2 hm] at hC'
    cases hC'

/-- Witness for C8 (amended) on the concrete table `wTable`. -/
theorem c8_case_sensitive_columns_witness :
    "SYSTEM" ∈ wTable.header ∧ "CASE_ID" ∈ wTable.header :=
  c8_case_sensitive_columns wTable wCases (by decide)

/-- C9: `load_and_process_data` is a pure deterministic transform — two
invocations on the identical input return element-wise (field-for-field)
equal case collections. -/
theorem c9_deterministic (r : ReadResult) (cs1 cs2 : List EvaluationCase)
    (h1 : load_and_process_data r = .returned cs1)
    (h2 : load_and_process_data r = .returned cs2) : cs1 = cs2 := by
  rw [h1] at h2
  injection h2

/-- Witness for C9 at the concrete read result `wTable`. -/
theorem c9_deterministic_witness : wCases = wCases :=
  c9_deterministic (.ok wTable) wCases wCases (by decide) (by decide)

end Dashboard
